import Mathlib

/-!
Verification of the MCPy world engine (chunk storage and procedural
generation core).

This file gives a shallow embedding of the world-engine source: the
`ChunkSection` block grid, the `Chunk` column with its sparse section map,
height map and lifecycle flags, the terrain generator's heightmap/biome
passes, and the `WorldEngine` store (resident table, disk layout, LRU
eviction).  The Cython source compiles with C division semantics
(`cdivision=True`), so section indices are computed with truncated
division (`Int.tdiv` / `Int.tmod`); the world-to-chunk coordinate maps
use arithmetic shifts and masks, i.e. floor division (`Int.fdiv`) and
Euclidean remainder (`Int.emod`).  NumPy `uint8` grids are modelled as
`Nat`-valued functions together with explicit `% 256` wrapping where the
source stores a C `int` into a `uint8` cell.  Dictionaries are modelled
as insertion-ordered association lists.
-/

/-- Association-list lookup, mirroring Python `dict` lookup
(first matching key; keys are unique in any state a `dict` can reach). -/
def alookup {κ α : Type} [DecidableEq κ] : List (κ × α) → κ → Option α
  | [], _ => none
  | (k, v) :: t, q => if k = q then some v else alookup t q

/-- Association-list assignment, mirroring Python `dict.__setitem__`:
replace in place when the key is present, append otherwise. -/
def aset {κ α : Type} [DecidableEq κ] : List (κ × α) → κ → α → List (κ × α)
  | [], q, v => [(q, v)]
  | (k, a) :: t, q, v => if k = q then (q, v) :: t else (k, a) :: aset t q v

/-- Association-list deletion of the first entry with the given key,
mirroring Python `del dict[key]`. -/
def aerase {κ α : Type} [DecidableEq κ] : List (κ × α) → κ → List (κ × α)
  | [], _ => []
  | (k, a) :: t, q => if k = q then t else (k, a) :: aerase t q

/-- A 16x16x16 grid of block ids, the `blocks` array of a chunk section
(`np.zeros((16, 16, 16), dtype=np.uint8)` in the source). -/
def Grid3 : Type := Fin 16 → Fin 16 → Fin 16 → Nat

instance : DecidableEq Grid3 :=
  inferInstanceAs (DecidableEq (Fin 16 → Fin 16 → Fin 16 → Nat))

/-- The all-zero grid (`np.zeros`). -/
def zeroGrid : Grid3 := fun _ _ _ => 0

/-- Pointwise update of one cell of a grid. -/
def setGrid (g : Grid3) (i j k : Fin 16) (v : Nat) : Grid3 :=
  fun a b c => if a = i ∧ b = j ∧ c = k then v else g a b c

/-- The `np.all(self.blocks == 0)` scan of `ChunkSection.set_block`. -/
def allZero (g : Grid3) : Bool :=
  decide (∀ i j k : Fin 16, g i j k = 0)

/-- A 16x16x16 section of blocks within a chunk (`cdef class ChunkSection`). -/
structure ChunkSection where
  y_index : Int
  blocks : Grid3
  blocklight : Grid3
  skylight : Grid3
  modified : Bool
  empty : Bool
  all_air : Bool

/-- `ChunkSection.__cinit__`: a fresh, all-air section at the given Y index. -/
def ChunkSection.new (yi : Int) : ChunkSection :=
  ⟨yi, zeroGrid, zeroGrid, zeroGrid, false, true, true⟩

/-- `ChunkSection.get_block`: bounds-checked read, 0 when out of range. -/
def ChunkSection.get_block (s : ChunkSection) (x y z : Int) : Nat :=
  if h : (0 ≤ x ∧ x < 16) ∧ (0 ≤ y ∧ y < 16) ∧ (0 ≤ z ∧ z < 16) then
    s.blocks ⟨x.toNat, by omega⟩ ⟨y.toNat, by omega⟩ ⟨z.toNat, by omega⟩
  else 0

/-- `ChunkSection.set_block`: bounds-checked write; `(false, unchanged)` when
out of range, otherwise write the cell, set `modified`, and recompute the
`empty` / `all_air` flags exactly as the source does. -/
def ChunkSection.set_block (s : ChunkSection) (x y z : Int) (id : Nat) :
    Bool × ChunkSection :=
  if h : (0 ≤ x ∧ x < 16) ∧ (0 ≤ y ∧ y < 16) ∧ (0 ≤ z ∧ z < 16) then
    let b := setGrid s.blocks ⟨x.toNat, by omega⟩ ⟨y.toNat, by omega⟩
      ⟨z.toNat, by omega⟩ id
    if id ≠ 0 then
      (true, { s with blocks := b, modified := true, empty := false,
                      all_air := false })
    else
      let aa := allZero b
      (true, { s with blocks := b, modified := true, all_air := aa,
                      empty := aa })
  else (false, s)

/-- Serialized form of a section (`ChunkSection.to_data` dictionary): the
vertical index, the three grids as raw bytes, and the `empty` flag.  The
byte round trip `tobytes` / `frombuffer` / `reshape` is the identity on
the grid, so the grids are kept as grids. -/
structure SectionData where
  y_index : Int
  blocks : Grid3
  blocklight : Grid3
  skylight : Grid3
  empty : Bool

/-- `ChunkSection.to_data`. -/
def ChunkSection.to_data (s : ChunkSection) : SectionData :=
  ⟨s.y_index, s.blocks, s.blocklight, s.skylight, s.empty⟩

/-- `ChunkSection.from_data`: rebuild the grids, copy `empty`, recompute
`all_air` by scanning, clear `modified`. -/
def ChunkSection.from_data (d : SectionData) : ChunkSection :=
  ⟨d.y_index, d.blocks, d.blocklight, d.skylight, false, d.empty,
   allZero d.blocks⟩

/-- A 16x16 column of the world from bottom to top (`cdef class Chunk`).
The `sections` dict is a sparse insertion-ordered map from vertical index
to section; `biomes` and `height_map` are `uint8` 16x16 grids. -/
structure Chunk where
  x : Int
  z : Int
  sections : List (Int × ChunkSection)
  biomes : Fin 16 → Fin 16 → Nat
  height_map : Fin 16 → Fin 16 → Nat
  generated : Bool
  populated : Bool
  modified : Bool
  last_used : Int

/-- `Chunk.__cinit__` at the given coordinates; `now` is the wall-clock
value `time(NULL)` stored into `last_used`. -/
def Chunk.new (x z now : Int) : Chunk :=
  ⟨x, z, [], fun _ _ => 0, fun _ _ => 0, false, false, false, now⟩

/-- `Chunk.get_section`: return the section at the given Y index, creating
and inserting it first when absent (the only way sections are created). -/
def Chunk.get_section (c : Chunk) (yi : Int) : ChunkSection × Chunk :=
  match alookup c.sections yi with
  | some s => (s, c)
  | none =>
      (ChunkSection.new yi,
       { c with sections := aset c.sections yi (ChunkSection.new yi) })

/-- `Chunk.get_block`: truncated division of `y` by the section height
(the module is compiled with `cdivision=True`), then delegate; 0 when the
section is absent. -/
def Chunk.get_block (c : Chunk) (x y z : Int) : Nat :=
  match alookup c.sections (Int.tdiv y 16) with
  | none => 0
  | some s => s.get_block x (Int.tmod y 16) z

/-- Pointwise update of one cell of a 16x16 `uint8` map. -/
def upd2 (f : Fin 16 → Fin 16 → Nat) (i j : Fin 16) (v : Nat) :
    Fin 16 → Fin 16 → Nat :=
  fun a b => if a = i ∧ b = j then v else f a b

/-- The downward scan of `Chunk.set_block`:
`for ny in range(y - 1, MIN_HEIGHT - 1, -1)` looking for the first non-air
block, reading through `Chunk.get_block`.  `fuel` is the length of the
range and `ny` its first element. -/
def findTop (c : Chunk) (x z : Int) : Nat → Int → Option Int
  | 0, _ => none
  | n + 1, ny =>
      if c.get_block x ny z ≠ 0 then some ny else findTop c x z n (ny - 1)

/-- `Chunk.set_block`: bounds check against the chunk footprint and the
world height band `[-64, 384)`, get-or-create the section, delegate the
write, and on success mark the chunk modified and maintain the height map
(raising it for a non-air block above the stored value, re-scanning
downward when the stored top block is cleared; the stored cell is a
`uint8`, so assignments wrap modulo 256). -/
def Chunk.set_block (c : Chunk) (x y z : Int) (id : Nat) : Bool × Chunk :=
  if h : (0 ≤ x ∧ x < 16) ∧ (-64 ≤ y ∧ y < 384) ∧ (0 ≤ z ∧ z < 16) then
    let sy := Int.tdiv y 16
    let ly := Int.tmod y 16
    let sc := c.get_section sy
    let rs := sc.1.set_block x ly z id
    let c2 := { sc.2 with sections := aset sc.2.sections sy rs.2 }
    if rs.1 then
      let c3 := { c2 with modified := true }
      let xf : Fin 16 := ⟨x.toNat, by omega⟩
      let zf : Fin 16 := ⟨z.toNat, by omega⟩
      let cur : Nat := c3.height_map xf zf
      let c4 :=
        if id ≠ 0 ∧ (cur : Int) < y then
          { c3 with height_map := upd2 c3.height_map xf zf (Int.emod y 256).toNat }
        else if id = 0 ∧ y = (cur : Int) then
          match findTop c3 x z (y + 64).toNat (y - 1) with
          | some ny =>
              { c3 with height_map := upd2 c3.height_map xf zf (Int.emod ny 256).toNat }
          | none => c3
        else c3
      (true, c4)
    else (false, c2)
  else (false, c)

/-- Serialized form of a chunk (`Chunk.to_data` dictionary). -/
structure ChunkData where
  x : Int
  z : Int
  biomes : Fin 16 → Fin 16 → Nat
  height_map : Fin 16 → Fin 16 → Nat
  generated : Bool
  populated : Bool
  sections : List (Int × SectionData)

/-- `Chunk.to_data`: snapshot coordinates, the two `uint8` grids, the two
lifecycle flags, and only the non-empty sections. -/
def Chunk.to_data (c : Chunk) : ChunkData :=
  ⟨c.x, c.z, c.biomes, c.height_map, c.generated, c.populated,
   (c.sections.filter fun p => !p.2.empty).map fun p => (p.1, p.2.to_data)⟩

/-- `Chunk.from_data`: rebuild the chunk, deserializing every stored
section; `modified` is cleared and `last_used` refreshed to `now`. -/
def Chunk.from_data (now : Int) (d : ChunkData) : Chunk :=
  ⟨d.x, d.z, d.sections.map fun p => (p.1, ChunkSection.from_data p.2),
   d.biomes, d.height_map, d.generated, d.populated, false, now⟩

/-- `Chunk.generate`: no-op when `generated` is already set; otherwise run
the generator's first pass and set `generated` and `modified`.  The
generator is the abstract first-pass transformation `gen`. -/
def Chunk.generate (gen : Chunk → Chunk) (c : Chunk) : Chunk :=
  if c.generated then c
  else { gen c with generated := true, modified := true }

/-- The `noise_params` dictionary of `TerrainGenerator.__cinit__`.  The
float-valued entries are modelled as rationals. -/
structure NoiseParams where
  octaves : Nat
  persistence : ℚ
  lacunarity : ℚ
  scale : ℚ
  offset : ℚ

/-- Mutable state of a `TerrainGenerator`: the `np.random.RandomState`
stream (abstracted to an opaque value, it is only threaded, never
interpreted here) plus the noise parameters and the
`using_scientific` flag. -/
structure GenState where
  rngState : Nat
  noise_params : NoiseParams
  using_scientific : Bool

/-- `TerrainGenerator._simple_noise`, with the C `sin` function abstracted
as the pure function `sinA` (floating point is modelled over ℚ with an
abstract transcendental). -/
def simple_noise (sinA : ℚ → ℚ) (x z : ℚ) : ℚ :=
  let nx := x * (1 / 100)
  let nz := z * (1 / 100)
  sinA (nx * 1 + nz * (1 / 2)) * (1 / 2) +
    sinA (nx * (1 / 2) + nz * 1) * (1 / 4) +
    sinA (nx * (1 / 4) + nz * (1 / 2)) * (1 / 8) +
    sinA (nx * (1 / 8) + nz * (1 / 4)) * (1 / 16)

/-- The C cast `<uint8_t>` applied to a double: truncation toward zero,
then wrap to the low byte. -/
def ratToU8 (q : ℚ) : Nat :=
  (Int.emod (Int.tdiv q.num q.den) 256).toNat

/-- The heightmap grid computed by `TerrainGenerator._generate_heightmap`
for the chunk at `(cx, cz)`.  The body reads exactly: the abstract
2-D noise `pn2` (the `noise.pnoise2` library call with its numeric
arguments), the abstract `sinA` inside `_simple_noise`, the abstract
gaussian `smooth` (`ndimage.gaussian_filter`), the `using_scientific`
flag, the noise parameters, and the chunk coordinates.  It reads no
other generator state and no chunk content. -/
def hmFun (pn2 : ℚ → ℚ → Nat → ℚ → ℚ → ℚ) (sinA : ℚ → ℚ)
    (smooth : (Fin 16 → Fin 16 → ℚ) → (Fin 16 → Fin 16 → ℚ))
    (usesci : Bool) (p : NoiseParams) (cx cz : Int) :
    Fin 16 → Fin 16 → Nat :=
  let hq : Fin 16 → Fin 16 → ℚ :=
    if usesci then
      smooth (fun lx lz =>
        let wx : Int := cx * 16 + (lx.val : Int)
        let wz : Int := cz * 16 + (lz.val : Int)
        let h := pn2 ((wx : ℚ) / p.scale) ((wz : ℚ) / p.scale)
          p.octaves p.persistence p.lacunarity
        (h + 1) * 32 + 64)
    else
      fun lx lz =>
        let wx : Int := cx * 16 + (lx.val : Int)
        let wz : Int := cz * 16 + (lz.val : Int)
        simple_noise sinA (wx : ℚ) (wz : ℚ) * 32 + 64
  fun lx lz => ratToU8 (hq lx lz)

/-- `TerrainGenerator._generate_heightmap`: store the computed heightmap
into the chunk; the generator state is returned untouched (the pass never
reads or writes `self.rng`). -/
def generate_heightmap (pn2 : ℚ → ℚ → Nat → ℚ → ℚ → ℚ) (sinA : ℚ → ℚ)
    (smooth : (Fin 16 → Fin 16 → ℚ) → (Fin 16 → Fin 16 → ℚ))
    (g : GenState) (c : Chunk) : Chunk × GenState :=
  let hm := hmFun pn2 sinA smooth g.using_scientific g.noise_params c.x c.z
  ({ c with height_map := hm }, g)

/-- `TerrainGenerator._get_biome`: fixed ordered thresholds on
temperature, humidity and height; returns the biome enum value. -/
def get_biome (temp humidity : ℚ) (height : Int) : Nat :=
  if height < 60 then 0
  else if height > 120 then
    if temp < -(3 / 10) then 10 else 3
  else if temp < -(1 / 2) then 10
  else if temp < 0 then
    if humidity > 3 / 10 then 5 else 1
  else if temp < 1 / 2 then
    if humidity > 3 / 5 then 6 else if humidity > 3 / 10 then 4 else 1
  else
    if humidity > 3 / 5 then 12 else if humidity > 1 / 5 then 14 else 2

/-- The biome grid computed by `TerrainGenerator._generate_biomes` for the
chunk at `(cx, cz)` whose stored heightmap is `hm`.  The body reads
exactly: the two abstract noise fields, the `using_scientific` flag, the
chunk coordinates, and the chunk's height map; it uses fixed numeric
constants, not `noise_params`, and never touches `self.rng`. -/
def biomeFun (pn2 : ℚ → ℚ → Nat → ℚ → ℚ → ℚ) (sinA : ℚ → ℚ)
    (usesci : Bool) (cx cz : Int) (hm : Fin 16 → Fin 16 → Nat) :
    Fin 16 → Fin 16 → Nat :=
  fun lx lz =>
    let wx : Int := cx * 16 + (lx.val : Int)
    let wz : Int := cz * 16 + (lz.val : Int)
    let height : Nat := hm lx lz
    let temp0 : ℚ :=
      if usesci then pn2 ((wx : ℚ) / 200) ((wz : ℚ) / 200) 2 (1 / 2) 2
      else simple_noise sinA ((wx : ℚ) * (1 / 2)) ((wz : ℚ) * (1 / 2))
    let humidity : ℚ :=
      if usesci then
        pn2 ((wx : ℚ) / 150 + 500) ((wz : ℚ) / 150 + 500) 3 (2 / 5) 2
      else
        simple_noise sinA ((wx : ℚ) * (1 / 2) + 500)
          ((wz : ℚ) * (1 / 2) + 500)
    let temp := temp0 - ((height : ℚ) - 64) * (1 / 100)
    get_biome temp humidity (height : Int)

/-- `TerrainGenerator._generate_biomes`: store the computed biome grid;
the generator state is returned untouched. -/
def generate_biomes (pn2 : ℚ → ℚ → Nat → ℚ → ℚ → ℚ) (sinA : ℚ → ℚ)
    (g : GenState) (c : Chunk) : Chunk × GenState :=
  let bs := biomeFun pn2 sinA g.using_scientific c.x c.z c.height_map
  ({ c with biomes := bs }, g)

/-- The heightmap and biome passes run in sequence, as at the start of
`TerrainGenerator.generate_chunk`. -/
def heightmap_biomes (pn2 : ℚ → ℚ → Nat → ℚ → ℚ → ℚ) (sinA : ℚ → ℚ)
    (smooth : (Fin 16 → Fin 16 → ℚ) → (Fin 16 → Fin 16 → ℚ))
    (g : GenState) (c : Chunk) : Chunk × GenState :=
  let r1 := generate_heightmap pn2 sinA smooth g c
  generate_biomes pn2 sinA r1.2 r1.1

/-- On-disk location of a chunk (`WorldEngine._get_chunk_path`): the
region directory `r.<cx >> 5>.<cz >> 5>` and the file `c.<cx & 31>.<cz & 31>.dat`.
An arithmetic shift right by 5 is floor division by 32 and a mask by 31
is the Euclidean remainder modulo 32. -/
def chunkPath (cx cz : Int) : (Int × Int) × (Int × Int) :=
  ((Int.fdiv cx 32, Int.fdiv cz 32), (Int.emod cx 32, Int.emod cz 32))

/-- Inverse of the disk mapping: `(rx * 32 + lx, rz * 32 + lz)`. -/
def chunkPathInv (p : (Int × Int) × (Int × Int)) : Int × Int :=
  (p.1.1 * 32 + p.2.1, p.1.2 * 32 + p.2.2)

/-- State of a `WorldEngine`: the resident chunk table (a dict keyed by
the `"{x},{z}"` string, i.e. by the coordinate pair), the chunk files on
disk keyed by their region/local path, the current wall-clock value, and
the configured resident maximum. -/
structure World where
  chunks : List ((Int × Int) × Chunk)
  disk : List (((Int × Int) × (Int × Int)) × ChunkData)
  now : Int
  max_chunks : Nat

/-- `WorldEngine._save_chunk`: skip when not modified, otherwise write the
serialized chunk at its path and clear the chunk's `modified` flag.
Returns the updated store and the updated chunk object. -/
def World.save_chunk (w : World) (c : Chunk) : World × Chunk :=
  if !c.modified then (w, c)
  else
    ({ w with disk := aset w.disk (chunkPath c.x c.z) c.to_data },
     { c with modified := false })

/-- One step of the eviction loop of `WorldEngine._unload_oldest_chunks`:
save the chunk when modified, then delete its key from the resident
table; the evicted `(key, chunk)` pair is recorded. -/
def evictStep (acc : World × List ((Int × Int) × Chunk))
    (kv : (Int × Int) × Chunk) : World × List ((Int × Int) × Chunk) :=
  let r := if kv.2.modified then acc.1.save_chunk kv.2 else (acc.1, kv.2)
  ({ r.1 with chunks := aerase r.1.chunks kv.1 }, acc.2 ++ [(kv.1, r.2)])

/-- Comparison key of the eviction sort (`key=lambda x: x[1].last_used`). -/
def lruLE (a b : (Int × Int) × Chunk) : Bool :=
  decide (a.2.last_used ≤ b.2.last_used)

/-- `WorldEngine._unload_oldest_chunks`: compute `max(1, N // 10)`, sort
the resident table by `last_used`, and evict that many of the oldest
chunks, saving each modified one first.  Returns the updated store and
the list of evicted entries. -/
def World.unload_oldest (w : World) : World × List ((Int × Int) × Chunk) :=
  let n := max 1 (w.chunks.length / 10)
  let victims := (w.chunks.mergeSort lruLE).take n
  victims.foldl evictStep (w, [])

/-- `WorldEngine.get_chunk`: resident-table hit refreshes `last_used` and
returns the chunk; on a miss, try the disk, then (when `generate` is set)
create and generate a fresh chunk; a found or created chunk is inserted
and, when the table exceeds `max_chunks`, the oldest tenth is evicted.
The returned chunk is the same object the caller received even when the
insertion immediately evicts it, in which case its `modified` flag may
have been cleared by the save. -/
def World.get_chunk (gen : Chunk → Chunk) (w : World) (cx cz : Int)
    (generate : Bool) : Option Chunk × World :=
  match alookup w.chunks (cx, cz) with
  | some c =>
      let c1 := { c with last_used := w.now }
      (some c1, { w with chunks := aset w.chunks (cx, cz) c1 })
  | none =>
      let loaded : Option Chunk :=
        (alookup w.disk (chunkPath cx cz)).map (Chunk.from_data w.now)
      let built : Option Chunk :=
        match loaded with
        | some c => some c
        | none =>
            if generate then some (Chunk.generate gen (Chunk.new cx cz w.now))
            else none
      match built with
      | none => (none, w)
      | some c =>
          let w2 := { w with chunks := aset w.chunks (cx, cz) c }
          if w2.chunks.length > w2.max_chunks then
            let r := w2.unload_oldest
            (some (match alookup r.2 (cx, cz) with
                   | some ec => ec
                   | none => c), r.1)
          else (some c, w2)

/-- Python `range(a, b)` over the integers. -/
def rangeInt (a b : Int) : List Int :=
  (List.range (b - a).toNat).map fun i => a + i

/-- The loop body of `WorldEngine.are_surrounding_chunks_generated`:
probe each coordinate with `get_chunk(nx, nz, False)`, returning `False`
at the first absent or ungenerated chunk (skipping the remaining
probes), threading the store state through every probe. -/
def checkGenList (gen : Chunk → Chunk) (w : World) :
    List (Int × Int) → Bool × World
  | [] => (true, w)
  | (nx, nz) :: rest =>
      let r := World.get_chunk gen w nx nz false
      match r.1 with
      | none => (false, r.2)
      | some c =>
          if c.generated then checkGenList gen r.2 rest else (false, r.2)

/-- `WorldEngine.are_surrounding_chunks_generated(x, z, radius)`. -/
def World.are_surrounding_chunks_generated (gen : Chunk → Chunk) (w : World)
    (cx cz radius : Int) : Bool × World :=
  checkGenList gen w
    ((rangeInt (-radius) (radius + 1)).flatMap fun dx =>
      (rangeInt (-radius) (radius + 1)).map fun dz => (cx + dx, cz + dz))

/-- `TerrainGenerator.populate_chunk`: return immediately (adding
nothing) unless all chunks within radius 1 are generated; otherwise run
the feature pass `features` (trees, vegetation, ore veins — abstracted,
they draw from the generator's random stream). -/
def TerrainGenerator.populate_chunk (gen : Chunk → Chunk)
    (features : Chunk → World → Chunk × World) (c : Chunk) (w : World) :
    Chunk × World :=
  let r := World.are_surrounding_chunks_generated gen w c.x c.z 1
  if !r.1 then (c, r.2) else features c r.2

/-- `Chunk.populate`: no-op when already populated or not yet generated;
otherwise run the generator's population pass and then set `populated`
and `modified` — unconditionally, even when the population pass declined
to add anything. -/
def Chunk.populate (popPass : Chunk → World → Chunk × World) (c : Chunk)
    (w : World) : Chunk × World :=
  if c.populated || !c.generated then (c, w)
  else
    let r := popPass c w
    ({ r.1 with populated := true, modified := true }, r.2)

/-- `WorldEngine.populate_chunk(cx, cz)`: look up the chunk without
generating; when it exists, is generated and not yet populated, run
`Chunk.populate` on it and store the updated chunk back in the table
(in the source the table entry is the same mutable object). -/
def World.populate_chunk (gen : Chunk → Chunk)
    (features : Chunk → World → Chunk × World) (w : World) (cx cz : Int) :
    World :=
  let r := World.get_chunk gen w cx cz false
  match r.1 with
  | none => r.2
  | some c =>
      if c.generated && !c.populated then
        let p := Chunk.populate (TerrainGenerator.populate_chunk gen features)
          c r.2
        { p.2 with chunks := aset p.2.chunks (cx, cz) p.1 }
      else r.2

/-- `WorldEngine.get_block` at world scale: 0 outside the height band;
otherwise split the coordinates by arithmetic shift and mask and read
through `get_chunk` with `generate=False`, returning 0 on a miss. -/
def World.get_block (gen : Chunk → Chunk) (w : World) (x y z : Int) :
    Nat × World :=
  if ¬(-64 ≤ y ∧ y < 384) then (0, w)
  else
    let r := World.get_chunk gen w (Int.fdiv x 16) (Int.fdiv z 16) false
    match r.1 with
    | none => (0, r.2)
    | some c => (c.get_block (Int.emod x 16) y (Int.emod z 16), r.2)

/-- Concrete non-empty section with a mix of block ids (id 7 at the
origin cell, air elsewhere), as produced by a successful non-air
`set_block` on a fresh section. -/
def sWit : ChunkSection :=
  { ChunkSection.new 0 with blocks := setGrid zeroGrid 0 0 0 7,
                            empty := false, all_air := false }

/-- Concrete chunk holding `sWit` at vertical index 0. -/
def cWit : Chunk :=
  { Chunk.new 0 0 0 with sections := [(0, sWit)] }

/-- Concrete generated chunk at (0, 0) carrying one stone block,
whose 8 neighbours do not exist. -/
def chunkC2 : Chunk :=
  { ((Chunk.new 0 0 0).set_block 0 64 0 2).2 with generated := true }

/-- Concrete store whose resident table holds only `chunkC2` and whose
disk is empty. -/
def worldC2 : World :=
  ⟨[((0, 0), chunkC2)], [], 100, 1000⟩

/-- Concrete store with 11 resident unmodified chunks (keys `(i, 0)`,
`last_used = i`) over a configured maximum of 10. -/
def w11 : World :=
  ⟨(List.range 11).map fun i => (((i : Int), (0 : Int)), Chunk.new (i : Int) 0 (i : Int)),
   [], 100, 10⟩

/-- The chunk object recorded for an evicted entry: saved entries have
their `modified` flag cleared by `_save_chunk`. -/
def evictedChunk (c : Chunk) : Chunk :=
  if c.modified then { c with modified := false } else c

theorem alookup_aset_self {κ α : Type} [DecidableEq κ] (l : List (κ × α))
    (k : κ) (v : α) : alookup (aset l k v) k = some v := by
  induction l with
  | nil => simp [aset, alookup]
  | cons p t ih =>
      by_cases h : p.1 = k <;> simp [aset, alookup, h, ih]

theorem alookup_aset_ne {κ α : Type} [DecidableEq κ] (l : List (κ × α))
    (k q : κ) (v : α) (h : k ≠ q) :
    alookup (aset l k v) q = alookup l q := by
  induction l with
  | nil => simp [aset, alookup, h]
  | cons p t ih =>
      by_cases hp : p.1 = k <;> simp [aset, alookup, hp, h, ih]

theorem mem_aset {κ α : Type} [DecidableEq κ] (l : List (κ × α))
    (k : κ) (v : α) (p : κ × α) (hp : p ∈ aset l k v) :
    p ∈ l ∨ p = (k, v) := by
  induction l with
  | nil => simp [aset] at hp; simp [hp]
  | cons q t ih =>
      by_cases h : q.1 = k
      · simp [aset, h] at hp
        rcases hp with hp | hp
        · right; simp [hp]
        · left; simp [hp]
      · simp [aset, h] at hp
        rcases hp with hp | hp
        · left; simp [hp]
        · rcases ih hp with hh | hh
          · left; simp [hh]
          · right; exact hh

theorem mem_aerase {κ α : Type} [DecidableEq κ] (l : List (κ × α))
    (k : κ) (p : κ × α) (hp : p ∈ aerase l k) : p ∈ l := by
  induction l with
  | nil => simp [aerase] at hp
  | cons q t ih =>
      by_cases h : q.1 = k
      · simp [aerase, h] at hp; simp [hp]
      · simp [aerase, h] at hp
        rcases hp with hp | hp
        · simp [hp]
        · simp [ih hp]

theorem mem_aerase_of_ne {κ α : Type} [DecidableEq κ] (l : List (κ × α))
    (k : κ) (p : κ × α) (hp : p ∈ l) (hne : p.1 ≠ k) : p ∈ aerase l k := by
  induction l with
  | nil => simp at hp
  | cons q t ih =>
      rcases List.mem_cons.mp hp with hq | hq
      · have hqk : ¬q.1 = k := hq ▸ hne
        simp [aerase, hqk, hq]
      · by_cases h : q.1 = k
        · simp [aerase, h, hq]
        · simp [aerase, h]
          right
          exact ih hq

theorem aerase_sublist {κ α : Type} [DecidableEq κ] (l : List (κ × α))
    (k : κ) : (aerase l k).Sublist l := by
  induction l with
  | nil => simp [aerase]
  | cons q t ih =>
      by_cases h : q.1 = k
      · simp [aerase, h]
      · simp [aerase, h]
        exact ih

theorem alookup_eq_none {κ α : Type} [DecidableEq κ] (l : List (κ × α))
    (k : κ) : alookup l k = none ↔ k ∉ l.map Prod.fst := by
  induction l with
  | nil => simp [alookup]
  | cons q t ih =>
      by_cases h : q.1 = k
      · simp [alookup, h]
      · have h' : ¬k = q.1 := fun heq => h heq.symm
        simp [alookup, h, h', ih]

theorem alookup_mem {κ α : Type} [DecidableEq κ] (l : List (κ × α))
    (k : κ) (v : α) (h : alookup l k = some v) : (k, v) ∈ l := by
  induction l with
  | nil => simp [alookup] at h
  | cons q t ih =>
      by_cases hq : q.1 = k
      · simp [alookup, hq] at h
        have : q = (k, v) := by
          cases q
          simp_all
        rw [← this]
        exact List.mem_cons_self q t
      · simp [alookup, hq] at h
        exact List.mem_cons_of_mem _ (ih h)

theorem setGrid_zero_apply (i j k a b c : Fin 16) :
    setGrid zeroGrid i j k 0 a b c = 0 := by
  simp [setGrid, zeroGrid]

/-- Left inverse of the disk path mapping: `(rx * 32 + lx, rz * 32 + lz)`
recovers `(cx, cz)`. -/
theorem chunkPath_left_inverse (cx cz : Int) :
    chunkPathInv (chunkPath cx cz) = (cx, cz) := by
  unfold chunkPath chunkPathInv
  have h32 : (0 : Int) ≤ 32 := by norm_num
  simp only [Int.fdiv_eq_ediv _ h32, Prod.mk.injEq]
  constructor
  · show cx / 32 * 32 + cx % 32 = cx
    omega
  · show cz / 32 * 32 + cz % 32 = cz
    omega

theorem chunkPath_injective {a b c d : Int}
    (h : chunkPath a b = chunkPath c d) : a = c ∧ b = d := by
  have := congrArg chunkPathInv h
  rw [chunkPath_left_inverse, chunkPath_left_inverse] at this
  exact ⟨congrArg Prod.fst this, congrArg Prod.snd this⟩

/-- C6: `Chunk.generate` is a no-op when the `generated` flag is already
true; when it is false it runs the generator's first pass and sets
`generated = true` and `modified = true`; in every case the resulting
chunk has `generated = true`, so a second `generate` call after the
first is a no-op (idempotence). -/
theorem c6_generate_idempotent (gen : Chunk → Chunk) (c : Chunk) :
    (c.generated = true → Chunk.generate gen c = c) ∧
    (c.generated = false →
      Chunk.generate gen c = { gen c with generated := true, modified := true }) ∧
    (Chunk.generate gen c).generated = true ∧
    Chunk.generate gen (Chunk.generate gen c) = Chunk.generate gen c := by
  unfold Chunk.generate
  cases hc : c.generated <;> simp [hc]

/-- Witness for C6 at the fresh chunk (0, 0): its `generated` flag is
false, so `generate` runs the pass and sets both flags. -/
theorem c6_generate_idempotent_witness :
    Chunk.generate id (Chunk.new 0 0 0) =
      { id (Chunk.new 0 0 0) with generated := true, modified := true } :=
  (c6_generate_idempotent id (Chunk.new 0 0 0)).2.1 rfl

/-- C7: for every local coordinate outside the 16x16x16 range,
`ChunkSection.get_block` returns 0 and `ChunkSection.set_block` returns
false with the section (grid and `modified` / `empty` / `all_air` flags)
unchanged; both are total functions, so neither can raise. -/
theorem c7_section_bounds (s : ChunkSection) (x y z : Int) (id : Nat)
    (h : ¬((0 ≤ x ∧ x < 16) ∧ (0 ≤ y ∧ y < 16) ∧ (0 ≤ z ∧ z < 16))) :
    s.get_block x y z = 0 ∧ s.set_block x y z id = (false, s) := by
  unfold ChunkSection.get_block ChunkSection.set_block
  rw [dif_neg h, dif_neg h]
  exact ⟨rfl, rfl⟩

/-- Witness for C7 at x = 16 on a fresh section. -/
theorem c7_section_bounds_witness :
    (ChunkSection.new 0).get_block 16 0 0 = 0 ∧
      (ChunkSection.new 0).set_block 16 0 0 7 = (false, ChunkSection.new 0) :=
  c7_section_bounds (ChunkSection.new 0) 16 0 0 7 (by decide)

/-- C9: the disk mapping `(cx, cz) ↦ ((cx >> 5, cz >> 5), (cx & 31, cz & 31))`
of `WorldEngine._get_chunk_path` is a bijection onto its image: the
original chunk coordinate is recovered as `(rx * 32 + lx, rz * 32 + lz)`,
and distinct chunk coordinates never share a region/local pair. -/
theorem c9_path_bijection :
    ∀ cx cz : Int, chunkPathInv (chunkPath cx cz) = (cx, cz) ∧
      ∀ cx' cz' : Int, chunkPath cx cz = chunkPath cx' cz' →
        cx = cx' ∧ cz = cz' := by
  intro cx cz
  exact ⟨chunkPath_left_inverse cx cz, fun _ _ h => chunkPath_injective h⟩

/-- Witness for C9 at (33, -33): the path decodes back, and applying the
injectivity component at equal arguments discharges its hypothesis. -/
theorem c9_path_bijection_witness :
    chunkPathInv (chunkPath 33 (-33)) = (33, -33) ∧ (33 : Int) = 33 ∧ (-33 : Int) = -33 :=
  ⟨(c9_path_bijection 33 (-33)).1, (c9_path_bijection 33 (-33)).2 33 (-33) rfl⟩

/-- C10 counterexample: at the in-range coordinate (0, -10, 0) of a fresh
chunk (whose vertical band has no section), `Chunk.set_block` with block
id 0 returns false and leaves `modified` false — the claim says it
returns true and sets `modified` — although the all-air section was
still allocated and inserted.  The C-truncated division sends y = -10 to
section 0 with local y = -10, which the section rejects. -/
theorem c10_air_write_counterexample :
    ((Chunk.new 0 0 0).set_block 0 (-10) 0 0).1 = false ∧
    ((Chunk.new 0 0 0).set_block 0 (-10) 0 0).2.modified = false ∧
    ((Chunk.new 0 0 0).set_block 0 (-10) 0 0).2.sections.length = 1 := by
  exact ⟨rfl, rfl, rfl⟩

theorem setGrid_zeroGrid (i j k : Fin 16) :
    setGrid zeroGrid i j k 0 = zeroGrid := by
  funext a b c
  simp [setGrid, zeroGrid]

theorem allZero_zeroGrid : allZero zeroGrid = true := by decide

/-- Writing air into a fresh section at an in-range local coordinate:
the write succeeds and the section stays all-air, with `modified` set and
`empty` / `all_air` recomputed to true. -/
theorem secNewSetAir (yi x ly z : Int)
    (hpos : (0 ≤ x ∧ x < 16) ∧ (0 ≤ ly ∧ ly < 16) ∧ (0 ≤ z ∧ z < 16)) :
    (ChunkSection.new yi).set_block x ly z 0 =
      (true, { ChunkSection.new yi with modified := true }) := by
  unfold ChunkSection.set_block
  rw [dif_pos hpos]
  simp [ChunkSection.new, setGrid_zeroGrid, allZero_zeroGrid]

/-- C10 (amended): writing air through `Chunk.set_block` at an in-range
coordinate whose vertical band has no section yet succeeds, allocates and
inserts a fresh all-air section, and dirties the chunk — provided the
C-truncated local y is in range (equivalently, `y >= 0` or `y` a
multiple of 16); for other negative in-range `y` the write is rejected
(see the counterexample), though the section is still allocated. -/
theorem c10_air_write_amended (c : Chunk) (x y z : Int)
    (hb : (0 ≤ x ∧ x < 16) ∧ (-64 ≤ y ∧ y < 384) ∧ (0 ≤ z ∧ z < 16))
    (habs : alookup c.sections (Int.tdiv y 16) = none)
    (hly : 0 ≤ Int.tmod y 16) :
    (c.set_block x y z 0).1 = true ∧
    (c.set_block x y z 0).2.modified = true ∧
    ∃ s, alookup (c.set_block x y z 0).2.sections (Int.tdiv y 16) = some s ∧
      allZero s.blocks = true ∧ s.all_air = true ∧ s.empty = true := by
  have hlt : Int.tmod y 16 < 16 := Int.tmod_lt_of_pos y (by norm_num)
  have hpos : (0 ≤ x ∧ x < 16) ∧ (0 ≤ Int.tmod y 16 ∧ Int.tmod y 16 < 16) ∧
      (0 ≤ z ∧ z < 16) := ⟨hb.1, ⟨hly, hlt⟩, hb.2.2⟩
  have hsec := secNewSetAir (Int.tdiv y 16) x (Int.tmod y 16) z hpos
  unfold Chunk.set_block
  rw [dif_pos hb]
  simp only [Chunk.get_section, habs, hsec, if_true]
  refine ⟨by simp, ?_, ?_⟩
  · split
    · rfl
    · split
      · split <;> rfl
      · rfl
  · split
    · exact ⟨_, alookup_aset_self _ _ _, allZero_zeroGrid, rfl, rfl⟩
    · split
      · split <;> exact ⟨_, alookup_aset_self _ _ _, allZero_zeroGrid, rfl, rfl⟩
      · exact ⟨_, alookup_aset_self _ _ _, allZero_zeroGrid, rfl, rfl⟩

/-- Witness for C10 (amended) at (1, 5, 2) on a fresh chunk: the air
write succeeds. -/
theorem c10_air_write_amended_witness :
    ((Chunk.new 0 0 0).set_block 1 5 2 0).1 = true :=
  (c10_air_write_amended (Chunk.new 0 0 0) 1 5 2 (by decide) rfl (by decide)).1

/-- C2 (code bug): on the concrete store `worldC2` — chunk (0, 0) is
generated and carries a block, its 8 neighbours exist neither in memory
nor on disk — `WorldEngine.populate_chunk(0, 0)` leaves the chunk's
blocks untouched (the generator's population pass is skipped, and the
result below is independent of the feature pass `features` and the
terrain pass `gen`), yet stores the chunk back with `populated = true`
and `modified = true`.  The claim (and spec scenario 5) require
`populated` to remain false so that a later call can populate. -/
theorem c2_populated_set_despite_skipped_population
    (gen : Chunk → Chunk) (features : Chunk → World → Chunk × World) :
    alookup (World.populate_chunk gen features worldC2 0 0).chunks (0, 0) =
      some { chunkC2 with populated := true, modified := true,
                          last_used := 100 } := rfl

/-- C8: when the chunk owning a world coordinate is neither resident nor
present on disk, `WorldEngine.get_block` (which passes `generate=False`
to `get_chunk`) returns 0 instead of failing. -/
theorem c8_get_block_absent_returns_zero (gen : Chunk → Chunk) (w : World)
    (x y z : Int)
    (hres : alookup w.chunks (Int.fdiv x 16, Int.fdiv z 16) = none)
    (hdisk : alookup w.disk (chunkPath (Int.fdiv x 16) (Int.fdiv z 16)) = none) :
    (World.get_block gen w x y z).1 = 0 := by
  unfold World.get_block
  by_cases hy : ¬(-64 ≤ y ∧ y < 384)
  · rw [if_pos hy]
  · rw [if_neg hy]
    unfold World.get_chunk
    simp [hres, hdisk]

/-- Witness for C8: on a fresh world directory (empty resident table and
empty disk), `get_block(5, 70, 5)` returns 0. -/
theorem c8_get_block_absent_returns_zero_witness :
    (World.get_block id ⟨[], [], 0, 100⟩ 5 70 5).1 = 0 :=
  c8_get_block_absent_returns_zero id ⟨[], [], 0, 100⟩ 5 70 5 rfl rfl

/-- C5: the heightmap and biome passes are deterministic functions of the
chunk coordinates (given the fixed construction-time noise parameters and
library flag): for any abstract noise/smoothing functions and any two
generator states sharing `noise_params` and `using_scientific` — their
random streams may differ arbitrarily — running the passes on two chunks
with the same coordinates yields identical `height_map` and `biomes`
grids, and returns each generator state unchanged (the passes never touch
`self.rng`, so repeated runs and process restarts agree bit for bit,
modulo the fixed pure float library abstracted here). -/
theorem c5_heightmap_biomes_deterministic
    (pn2 : ℚ → ℚ → Nat → ℚ → ℚ → ℚ) (sinA : ℚ → ℚ)
    (smooth : (Fin 16 → Fin 16 → ℚ) → (Fin 16 → Fin 16 → ℚ))
    (g1 g2 : GenState) (c1 c2 : Chunk)
    (hp : g1.noise_params = g2.noise_params)
    (hs : g1.using_scientific = g2.using_scientific)
    (hx : c1.x = c2.x) (hz : c1.z = c2.z) :
    (heightmap_biomes pn2 sinA smooth g1 c1).1.height_map =
      (heightmap_biomes pn2 sinA smooth g2 c2).1.height_map ∧
    (heightmap_biomes pn2 sinA smooth g1 c1).1.biomes =
      (heightmap_biomes pn2 sinA smooth g2 c2).1.biomes ∧
    (heightmap_biomes pn2 sinA smooth g1 c1).2 = g1 ∧
    (heightmap_biomes pn2 sinA smooth g2 c2).2 = g2 := by
  unfold heightmap_biomes generate_heightmap generate_biomes
  simp [hp, hs, hx, hz]

/-- Witness for C5 with concrete zero noise, identity smoothing, and the
default construction-time parameters. -/
theorem c5_heightmap_biomes_deterministic_witness :
    (heightmap_biomes (fun _ _ _ _ _ => 0) (fun _ => 0) id
        ⟨0, ⟨6, 1 / 2, 2, 100, 0⟩, true⟩ (Chunk.new 0 0 0)).2 =
      ⟨0, ⟨6, 1 / 2, 2, 100, 0⟩, true⟩ :=
  (c5_heightmap_biomes_deterministic (fun _ _ _ _ _ => 0) (fun _ => 0) id
    ⟨0, ⟨6, 1 / 2, 2, 100, 0⟩, true⟩ ⟨0, ⟨6, 1 / 2, 2, 100, 0⟩, true⟩
    (Chunk.new 0 0 0) (Chunk.new 0 0 0) rfl rfl rfl rfl).2.2.1

/-- C1 (code bug): on a fresh chunk, the single in-range call
`set_block(0, 0, 0, 0)` (writing air) succeeds and leaves the column
entirely air, yet the stored height-map entry at (0, 0) is 0, not the
world minimum height −64 demanded by the claim: the downward re-scan of
`Chunk.set_block` finds no non-air block and then leaves the stale entry
in place (and the `uint8` grid could not even represent −64). -/
theorem c1_heightmap_stale_when_column_cleared :
    (((Chunk.new 0 0 0).set_block 0 0 0 0).1 = true) ∧
    (∀ x y z : Int,
      ((Chunk.new 0 0 0).set_block 0 0 0 0).2.get_block x y z = 0) ∧
    (((Chunk.new 0 0 0).set_block 0 0 0 0).2.height_map 0 0 = 0) ∧
    ¬((((Chunk.new 0 0 0).set_block 0 0 0 0).2.height_map 0 0 : Int) = -64) := by
  refine ⟨rfl, ?_, rfl, by decide⟩
  intro x y z
  have hs : ((Chunk.new 0 0 0).set_block 0 0 0 0).2.sections =
      [(0, ⟨0, setGrid zeroGrid 0 0 0 0, zeroGrid, zeroGrid, true, true,
            true⟩)] := rfl
  unfold Chunk.get_block
  rw [hs]
  by_cases h : (0 : Int) = Int.tdiv y 16
  · simp only [alookup, if_pos h]
    unfold ChunkSection.get_block
    split
    · exact setGrid_zero_apply _ _ _ _ _ _
    · rfl
  · simp only [alookup, if_neg h]

theorem allZero_iff (g : Grid3) :
    allZero g = true ↔ ∀ i j k : Fin 16, g i j k = 0 := by
  simp [allZero]

/-- Deserializing a serialized section preserves every block read (the
grids are copied verbatim). -/
theorem sec_roundtrip_get (s : ChunkSection) (x y z : Int) :
    (ChunkSection.from_data s.to_data).get_block x y z = s.get_block x y z :=
  rfl

theorem alookup_mapped_filtered_none (t : List (Int × ChunkSection))
    (k : Int) (hk : k ∉ t.map Prod.fst) :
    alookup (((t.filter fun p => !p.2.empty).map
        fun p => (p.1, p.2.to_data)).map
        fun p => (p.1, ChunkSection.from_data p.2)) k = none := by
  rw [alookup_eq_none]
  intro hmem
  apply hk
  simp only [List.map_map, List.mem_map] at hmem
  obtain ⟨p, hp, hkey⟩ := hmem
  have hpt : p ∈ t := List.mem_of_mem_filter hp
  have : p.1 = k := hkey
  exact this ▸ List.mem_map_of_mem Prod.fst hpt

/-- Looking up a vertical index in the serialized-then-deserialized
section table of a chunk with duplicate-free keys: present non-empty
sections round trip, empty sections were dropped. -/
theorem alookup_sections_roundtrip (l : List (Int × ChunkSection)) (k : Int)
    (hnd : (l.map Prod.fst).Nodup) :
    alookup (((l.filter fun p => !p.2.empty).map
        fun p => (p.1, p.2.to_data)).map
        fun p => (p.1, ChunkSection.from_data p.2)) k =
      match alookup l k with
      | none => none
      | some s =>
          if s.empty then none else some (ChunkSection.from_data s.to_data) := by
  induction l with
  | nil => rfl
  | cons q t ih =>
      have hqt : q.1 ∉ t.map Prod.fst := (List.nodup_cons.mp hnd).1
      have hnt : (t.map Prod.fst).Nodup := (List.nodup_cons.mp hnd).2
      by_cases hq : q.1 = k
      · cases hqe : q.2.empty
        · simp only [List.filter_cons, hqe, Bool.not_false, if_true,
            List.map_cons, alookup, hq, if_pos rfl, hqe]
          simp [alookup, hq, hqe]
        · simp only [List.filter_cons, hqe, Bool.not_true, Bool.false_eq_true,
            if_false]
          rw [alookup_mapped_filtered_none t k (hq ▸ hqt)]
          simp [alookup, hq, hqe]
      · cases hqe : q.2.empty
        · simp only [List.filter_cons, hqe, Bool.not_false, List.map_cons]
          simp only [alookup, hq, if_neg hq]
          exact ih hnt
        · simp only [List.filter_cons, hqe, Bool.not_true, Bool.false_eq_true,
            if_false]
          rw [ih hnt]
          simp [alookup, hq]

/-- C4: serializing a chunk with `to_data` and deserializing with
`from_data` reproduces every block read, the biome grid, and the height
map.  The hypotheses are the representation invariants of any chunk the
API can build — duplicate-free section keys and `empty` implying an
all-air grid — plus the claim's setup of at least one non-empty section
holding a mix of block ids. -/
theorem c4_serialization_roundtrip (c : Chunk) (now : Int)
    (hnd : (c.sections.map Prod.fst).Nodup)
    (hinv : ∀ p ∈ c.sections, p.2.empty = true → allZero p.2.blocks = true)
    (hmix : ∃ p ∈ c.sections, p.2.empty = false ∧
      (∃ i j k : Fin 16, p.2.blocks i j k ≠ 0) ∧
      (∃ i j k : Fin 16, p.2.blocks i j k = 0)) :
    (∀ x y z : Int,
      (Chunk.from_data now c.to_data).get_block x y z = c.get_block x y z) ∧
    (Chunk.from_data now c.to_data).biomes = c.biomes ∧
    (Chunk.from_data now c.to_data).height_map = c.height_map := by
  refine ⟨?_, rfl, rfl⟩
  intro x y z
  unfold Chunk.get_block
  show (match alookup (((c.sections.filter fun p => !p.2.empty).map
      fun p => (p.1, p.2.to_data)).map
      fun p => (p.1, ChunkSection.from_data p.2)) (Int.tdiv y 16) with
    | none => 0
    | some s => s.get_block x (Int.tmod y 16) z) = _
  rw [alookup_sections_roundtrip c.sections (Int.tdiv y 16) hnd]
  cases hl : alookup c.sections (Int.tdiv y 16) with
  | none => rfl
  | some s =>
      cases hse : s.empty
      · simp [hse, sec_roundtrip_get]
      · simp only [hse, if_true]
        have hz : allZero s.blocks = true :=
          hinv (Int.tdiv y 16, s) (alookup_mem _ _ _ hl) hse
        have hcell := (allZero_iff s.blocks).mp hz
        unfold ChunkSection.get_block
        split
        · exact (hcell _ _ _).symm
        · rfl

/-- Witness for C4 on the concrete chunk `cWit`, whose single section is
non-empty and holds both a non-air and an air cell. -/
theorem c4_serialization_roundtrip_witness :
    (Chunk.from_data 5 cWit.to_data).biomes = cWit.biomes :=
  (c4_serialization_roundtrip cWit 5 (by simp [cWit])
    (by
      intro p hp he
      rcases List.mem_singleton.mp hp with rfl
      exact absurd he (by decide))
    ⟨(0, sWit), List.mem_singleton.mpr rfl, rfl,
      ⟨0, 0, 0, by decide⟩, ⟨1, 0, 0, by decide⟩⟩).2.1

theorem evictStep_snd (acc : World × List ((Int × Int) × Chunk))
    (kv : (Int × Int) × Chunk) :
    (evictStep acc kv).2 = acc.2 ++ [(kv.1, evictedChunk kv.2)] := by
  cases hm : kv.2.modified <;>
    simp [evictStep, World.save_chunk, evictedChunk, hm]

theorem evictStep_chunks (acc : World × List ((Int × Int) × Chunk))
    (kv : (Int × Int) × Chunk) :
    (evictStep acc kv).1.chunks = aerase acc.1.chunks kv.1 := by
  cases hm : kv.2.modified <;>
    simp [evictStep, World.save_chunk, hm]

theorem evictStep_disk (acc : World × List ((Int × Int) × Chunk))
    (kv : (Int × Int) × Chunk) :
    (evictStep acc kv).1.disk =
      (if kv.2.modified then
        aset acc.1.disk (chunkPath kv.2.x kv.2.z) kv.2.to_data
      else acc.1.disk) := by
  cases hm : kv.2.modified <;>
    simp [evictStep, World.save_chunk, hm]

theorem evict_foldl_snd (vs : List ((Int × Int) × Chunk))
    (acc : World × List ((Int × Int) × Chunk)) :
    (vs.foldl evictStep acc).2 =
      acc.2 ++ vs.map (fun kv => (kv.1, evictedChunk kv.2)) := by
  induction vs generalizing acc with
  | nil => simp
  | cons v t ih =>
      rw [List.foldl_cons, ih, List.map_cons]
      rw [evictStep_snd]
      simp

theorem evict_foldl_chunks (vs : List ((Int × Int) × Chunk))
    (acc : World × List ((Int × Int) × Chunk)) :
    (vs.foldl evictStep acc).1.chunks =
      (vs.map Prod.fst).foldl (fun l k => aerase l k) acc.1.chunks := by
  induction vs generalizing acc with
  | nil => simp
  | cons v t ih =>
      rw [List.foldl_cons, ih, List.map_cons, List.foldl_cons]
      rw [evictStep_chunks]

theorem evict_foldl_disk (vs : List ((Int × Int) × Chunk))
    (acc : World × List ((Int × Int) × Chunk)) :
    (vs.foldl evictStep acc).1.disk =
      vs.foldl (fun d kv => if kv.2.modified then
          aset d (chunkPath kv.2.x kv.2.z) kv.2.to_data
        else d) acc.1.disk := by
  induction vs generalizing acc with
  | nil => simp
  | cons v t ih =>
      rw [List.foldl_cons, ih, List.foldl_cons]
      rw [evictStep_disk]

theorem mem_foldl_aerase {κ α : Type} [DecidableEq κ] (ks : List κ)
    (l : List (κ × α)) (p : κ × α)
    (hp : p ∈ ks.foldl (fun l k => aerase l k) l) : p ∈ l := by
  induction ks generalizing l with
  | nil => exact hp
  | cons k t ih => exact mem_aerase _ _ _ (ih _ hp)

theorem keys_ne_of_aerase {κ α : Type} [DecidableEq κ] (l : List (κ × α))
    (k : κ) (hnd : (l.map Prod.fst).Nodup) (p : κ × α)
    (hp : p ∈ aerase l k) : p.1 ≠ k := by
  induction l with
  | nil => simp [aerase] at hp
  | cons q t ih =>
      have hqt : q.1 ∉ t.map Prod.fst := (List.nodup_cons.mp hnd).1
      have hnt : (t.map Prod.fst).Nodup := (List.nodup_cons.mp hnd).2
      by_cases hq : q.1 = k
      · simp only [aerase, if_pos hq] at hp
        intro hk
        exact hqt (hq ▸ hk ▸ List.mem_map_of_mem Prod.fst hp)
      · simp only [aerase, if_neg hq] at hp
        rcases List.mem_cons.mp hp with hh | hh
        · exact hh ▸ hq
        · exact ih hnt hh

theorem keys_aerase_nodup {κ α : Type} [DecidableEq κ] (l : List (κ × α))
    (k : κ) (hnd : (l.map Prod.fst).Nodup) :
    ((aerase l k).map Prod.fst).Nodup :=
  ((aerase_sublist l k).map Prod.fst).nodup hnd

theorem foldl_aerase_keys {κ α : Type} [DecidableEq κ] (ks : List κ)
    (l : List (κ × α)) (hnd : (l.map Prod.fst).Nodup) (p : κ × α)
    (hp : p ∈ ks.foldl (fun l k => aerase l k) l) : p.1 ∉ ks := by
  induction ks generalizing l with
  | nil => simp
  | cons k t ih =>
      intro hmem
      rcases List.mem_cons.mp hmem with hh | hh
      · have hpe : p ∈ aerase l k :=
          mem_foldl_aerase t (aerase l k) p hp
        exact keys_ne_of_aerase l k hnd p hpe hh
      · exact ih (aerase l k) (keys_aerase_nodup l k hnd) hp hh

theorem foldl_aerase_mem_of_not_mem {κ α : Type} [DecidableEq κ]
    (ks : List κ) (l : List (κ × α)) (p : κ × α) (hp : p ∈ l)
    (hk : p.1 ∉ ks) : p ∈ ks.foldl (fun l k => aerase l k) l := by
  induction ks generalizing l with
  | nil => exact hp
  | cons k t ih =>
      have h1 : p.1 ≠ k := fun h => hk (h ▸ List.mem_cons_self k t)
      have h2 : p.1 ∉ t := fun h => hk (List.mem_cons_of_mem k h)
      exact ih (aerase l k) (mem_aerase_of_ne l k p hp h1) h2

theorem aerase_length_of_mem {κ α : Type} [DecidableEq κ]
    (l : List (κ × α)) (k : κ) (hk : k ∈ l.map Prod.fst) :
    (aerase l k).length + 1 = l.length := by
  induction l with
  | nil => simp at hk
  | cons q t ih =>
      by_cases hq : q.1 = k
      · simp [aerase, hq]
      · have hkt : k ∈ t.map Prod.fst := by
          rcases List.mem_cons.mp hk with hh | hh
          · exact absurd hh.symm hq
          · exact hh
        simp only [aerase, if_neg hq, List.length_cons, ih hkt]

theorem foldl_aerase_length {κ α : Type} [DecidableEq κ] (ks : List κ)
    (l : List (κ × α)) (hks : ks.Nodup)
    (hmem : ∀ k ∈ ks, k ∈ l.map Prod.fst) :
    (ks.foldl (fun l k => aerase l k) l).length + ks.length = l.length := by
  induction ks generalizing l with
  | nil => simp
  | cons k t ih =>
      have hkl : k ∈ l.map Prod.fst := hmem k (List.mem_cons_self k t)
      have htn : t.Nodup := (List.nodup_cons.mp hks).2
      have hknt : k ∉ t := (List.nodup_cons.mp hks).1
      have hmem' : ∀ q ∈ t, q ∈ (aerase l k).map Prod.fst := by
        intro q hq
        have hql : q ∈ l.map Prod.fst := hmem q (List.mem_cons_of_mem k hq)
        rcases List.mem_map.mp hql with ⟨p, hpl, hpq⟩
        have hne : p.1 ≠ k := fun h =>
          hknt (by rw [← hpq, h] at hq; exact hq)
        exact hpq ▸
          List.mem_map_of_mem Prod.fst (mem_aerase_of_ne l k p hpl hne)
      have := ih (aerase l k) htn hmem'
      have hlen := aerase_length_of_mem l k hkl
      simp only [List.foldl_cons, List.length_cons]
      omega

theorem foldl_disk_untouched (vs : List ((Int × Int) × Chunk))
    (d : List (((Int × Int) × (Int × Int)) × ChunkData))
    (p : (Int × Int) × (Int × Int))
    (hne : ∀ u ∈ vs, chunkPath u.2.x u.2.z ≠ p) :
    alookup (vs.foldl (fun d kv => if kv.2.modified then
        aset d (chunkPath kv.2.x kv.2.z) kv.2.to_data
      else d) d) p = alookup d p := by
  induction vs generalizing d with
  | nil => rfl
  | cons v t ih =>
      rw [List.foldl_cons, ih _ (fun u hu => hne u (List.mem_cons_of_mem v hu))]
      cases hm : v.2.modified
      · simp
      · simp only [if_pos rfl]
        exact alookup_aset_ne _ _ _ _ (hne v (List.mem_cons_self v t))

theorem foldl_disk_saved (vs : List ((Int × Int) × Chunk))
    (d : List (((Int × Int) × (Int × Int)) × ChunkData))
    (hpw : vs.Pairwise (fun a b =>
      chunkPath a.2.x a.2.z ≠ chunkPath b.2.x b.2.z))
    (v : (Int × Int) × Chunk) (hv : v ∈ vs) (hm : v.2.modified = true) :
    alookup (vs.foldl (fun d kv => if kv.2.modified then
        aset d (chunkPath kv.2.x kv.2.z) kv.2.to_data
      else d) d) (chunkPath v.2.x v.2.z) = some v.2.to_data := by
  induction vs generalizing d with
  | nil => simp at hv
  | cons u t ih =>
      rcases List.mem_cons.mp hv with hh | hh
      · subst hh
        rw [List.foldl_cons,
          foldl_disk_untouched t _ _ (fun q hq =>
            ((List.pairwise_cons.mp hpw).1 q hq).symm)]
        rw [if_pos hm]
        exact alookup_aset_self _ _ _
      · rw [List.foldl_cons]
        exact ih _ (List.pairwise_cons.mp hpw).2 hh

theorem lruLE_trans (a b c : (Int × Int) × Chunk) (h1 : lruLE a b = true)
    (h2 : lruLE b c = true) : lruLE a c = true := by
  simp [lruLE] at h1 h2 ⊢
  omega

theorem lruLE_total (a b : (Int × Int) × Chunk) :
    (lruLE a b || lruLE b a) = true := by
  simp [lruLE]
  omega

theorem unload_eq (w : World) :
    w.unload_oldest =
      ((w.chunks.mergeSort lruLE).take
        (max 1 (w.chunks.length / 10))).foldl evictStep (w, []) := rfl

theorem evictedChunk_last_used (c : Chunk) :
    (evictedChunk c).last_used = c.last_used := by
  unfold evictedChunk
  split <;> rfl

/-- C3 (amended): when the resident table exceeds the configured maximum
(and satisfies the dict representation invariants: duplicate-free keys
that agree with each chunk's coordinates), `_unload_oldest_chunks`
removes exactly `max(1, N // 10)` chunks — floor division with a minimum
of one, not the ceiling `⌈N/10⌉` stated by the claim — these are
least-recently-used (every evicted chunk's `last_used` is at most every
survivor's), and every evicted chunk whose `modified` flag was set is
written to disk at its region/local path before being dropped. -/
theorem c3_eviction_amended (w : World)
    (hover : w.max_chunks < w.chunks.length)
    (hnd : (w.chunks.map Prod.fst).Nodup)
    (hkeys : ∀ kv ∈ w.chunks, kv.1 = (kv.2.x, kv.2.z)) :
    (w.unload_oldest).2.length = max 1 (w.chunks.length / 10) ∧
    (w.unload_oldest).1.chunks.length + max 1 (w.chunks.length / 10) =
      w.chunks.length ∧
    (∀ e ∈ (w.unload_oldest).2, ∀ kv ∈ (w.unload_oldest).1.chunks,
      e.2.last_used ≤ kv.2.last_used) ∧
    (∀ kv ∈ w.chunks, kv.1 ∉ (w.unload_oldest).1.chunks.map Prod.fst →
      kv.2.modified = true →
      alookup (w.unload_oldest).1.disk (chunkPath kv.2.x kv.2.z) =
        some kv.2.to_data) := by
  have h1N : 1 ≤ w.chunks.length := by omega
  rw [unload_eq w]
  set n := max 1 (w.chunks.length / 10) with hn
  set sorted := w.chunks.mergeSort lruLE with hsorted
  set victims := sorted.take n with hvict
  have hperm : sorted.Perm w.chunks := List.mergeSort_perm w.chunks lruLE
  have hslen : sorted.length = w.chunks.length := by
    rw [hsorted, List.length_mergeSort]
  have hnN : n ≤ w.chunks.length := by omega
  have hvlen : victims.length = n := by
    rw [hvict, List.length_take, hslen]
    omega
  have hndsorted : (sorted.map Prod.fst).Nodup :=
    (hperm.map Prod.fst).nodup_iff.mpr hnd
  have hvnd : (victims.map Prod.fst).Nodup :=
    ((List.take_sublist n sorted).map Prod.fst).nodup hndsorted
  have hvsub : ∀ v ∈ victims, v ∈ w.chunks := fun v hv =>
    hperm.mem_iff.mp ((List.take_sublist n sorted).subset hv)
  have hsplit : victims ++ sorted.drop n = sorted := List.take_append_drop n sorted
  simp only [evict_foldl_snd, evict_foldl_chunks, evict_foldl_disk,
    List.nil_append]
  refine ⟨?_, ?_, ?_, ?_⟩
  · rw [List.length_map, hvlen]
  · have hmemk : ∀ k ∈ victims.map Prod.fst, k ∈ w.chunks.map Prod.fst := by
      intro k hk
      rcases List.mem_map.mp hk with ⟨v, hv, rfl⟩
      exact List.mem_map_of_mem Prod.fst (hvsub v hv)
    have := foldl_aerase_length (victims.map Prod.fst) w.chunks hvnd hmemk
    rw [List.length_map, hvlen] at this
    exact this
  · intro e he kv hkv
    rcases List.mem_map.mp he with ⟨v, hvv, rfl⟩
    have hkvc : kv ∈ w.chunks :=
      mem_foldl_aerase (victims.map Prod.fst) w.chunks kv hkv
    have hkvs : kv ∈ sorted := hperm.mem_iff.mpr hkvc
    have hkv_not : kv.1 ∉ victims.map Prod.fst :=
      foldl_aerase_keys (victims.map Prod.fst) w.chunks hnd kv hkv
    have hkvd : kv ∈ sorted.drop n := by
      rw [← hsplit] at hkvs
      rcases List.mem_append.mp hkvs with hh | hh
      · exact absurd (List.mem_map_of_mem Prod.fst hh) hkv_not
      · exact hh
    have hpair : sorted.Pairwise (fun a b => lruLE a b = true) :=
      List.sorted_mergeSort lruLE_trans lruLE_total w.chunks
    have hpair2 : (victims ++ sorted.drop n).Pairwise
        (fun a b => lruLE a b = true) := by rw [hsplit]; exact hpair
    have hcross := (List.pairwise_append.mp hpair2).2.2 v hvv kv hkvd
    rw [evictedChunk_last_used]
    simpa [lruLE] using hcross
  · intro kv hkvc hnotin hmod
    have hkvs : kv ∈ sorted := hperm.mem_iff.mpr hkvc
    have hkvv : kv ∈ victims := by
      rw [← hsplit] at hkvs
      rcases List.mem_append.mp hkvs with hh | hh
      · exact hh
      · exfalso
        have hkeysplit : (victims.map Prod.fst) ++
            ((sorted.drop n).map Prod.fst) = sorted.map Prod.fst := by
          rw [← List.map_append, hsplit]
        have hndboth : ((victims.map Prod.fst) ++
            ((sorted.drop n).map Prod.fst)).Nodup := by
          rw [hkeysplit]; exact hndsorted
        have hdisj := (List.nodup_append.mp hndboth).2.2
        have hkv_not : kv.1 ∉ victims.map Prod.fst := by
          intro hin
          exact hdisj hin (List.mem_map_of_mem Prod.fst hh)
        have hsurv := foldl_aerase_mem_of_not_mem (victims.map Prod.fst)
          w.chunks kv hkvc hkv_not
        exact hnotin (List.mem_map_of_mem Prod.fst hsurv)
    have hpw : victims.Pairwise (fun a b =>
        chunkPath a.2.x a.2.z ≠ chunkPath b.2.x b.2.z) := by
      have hne : victims.Pairwise (fun a b => a.1 ≠ b.1) :=
        (List.pairwise_map.mp hvnd)
      refine hne.imp_of_mem ?_
      intro a b ha hb hab hpath
      apply hab
      have h1 := hkeys a (hvsub a ha)
      have h2 := hkeys b (hvsub b hb)
      have h3 := chunkPath_injective hpath
      rw [h1, h2, h3.1, h3.2]
    exact foldl_disk_saved victims w.disk hpw kv hkvv hmod

theorem unload_count (w : World) (h1 : 1 ≤ w.chunks.length) :
    (w.unload_oldest).2.length = max 1 (w.chunks.length / 10) := by
  rw [unload_eq w, evict_foldl_snd]
  simp only [List.nil_append, List.length_map, List.length_take,
    List.length_mergeSort]
  omega

/-- C3 counterexample: a resident table of 11 chunks over its configured
maximum of 10.  Eviction removes exactly `max(1, 11 // 10) = 1` chunk,
not the `⌈11/10⌉ = 2` chunks the claim states. -/
theorem c3_eviction_count_counterexample :
    w11.chunks.length = 11 ∧ w11.max_chunks = 10 ∧
    (w11.unload_oldest).2.length = 1 ∧
    ¬((w11.unload_oldest).2.length = (11 + 9) / 10) := by
  have hlen : w11.chunks.length = 11 := rfl
  have hc := unload_count w11 (by rw [hlen]; omega)
  rw [hlen] at hc
  norm_num at hc
  refine ⟨hlen, rfl, hc, ?_⟩
  rw [hc]
  decide

/-- Witness for C3 (amended) on the concrete over-capacity store `w11`. -/
theorem c3_eviction_amended_witness :
    (w11.unload_oldest).2.length = max 1 (w11.chunks.length / 10) :=
  (c3_eviction_amended w11 (by decide) (by decide) (by decide)).1
